import Mathlib

/-!
Verification of the golfbot64 score-tracking system.

This file gives a shallow embedding of the core algorithms of the repository
(`bot_commands.py`, with the per-statement commit semantics of `db_helper.py`)
and proves or refutes the specification claims about them.

Modelling conventions:
* Python floats are modelled as rationals (`ℚ`); all arithmetic in the source
  is exact on the inputs considered, so this is the ideal-arithmetic reading.
* The sentinel `INVALID_RATING` (defined in `globals.py`, which is not part of
  the sources here) is modelled as `none` of an `Option ℚ`; a real rating `r`
  is `some r`.  Nothing below depends on the numeric value of the sentinel.
* Database tables are Lean lists in insertion order; SQL `ORDER BY timestamp`
  and Python's stable `list.sort(key=...)` are modelled by
  `List.insertionSort`, which is the stable sort.
* Each `db_helper` call commits independently (`connection.commit()` at the
  end of every helper); a multi-step workflow is therefore modelled as a
  composition of state transformers, and the state after any committed step
  is observable if a later step fails.
-/

namespace Golfbot

/-- Arithmetic mean of a list of rationals (`sum(l) / len(l)` in the source). -/
def mean (l : List ℚ) : ℚ := l.sum / l.length

/-- The last `n` elements of a list: Python's `l[-n:]`. -/
def lastN (n : Nat) (l : List α) : List α := l.drop (l.length - n)

/-- `MIN_REQUIRED_SCORES` from `calculate_player_rating`. -/
def MIN_REQUIRED_SCORES : Nat := 6

/-- `ROLLING_AVERAGE_WINDOW` from `calculate_player_rating`. -/
def ROLLING_AVERAGE_WINDOW : Nat := 40

/-- `calculate_player_rating` from `bot_commands.py` (lines 396-426):
fewer than 6 scores gives the `INVALID_RATING` sentinel (here `none`),
fewer than 40 gives the average of all scores, otherwise the average of
`scores[-40:]` divided by the constant window size. -/
def calculate_player_rating (scores : List ℚ) : Option ℚ :=
  if scores.length < MIN_REQUIRED_SCORES then
    none
  else if scores.length < ROLLING_AVERAGE_WINDOW then
    some (scores.sum / scores.length)
  else
    some ((lastN ROLLING_AVERAGE_WINDOW scores).sum / (ROLLING_AVERAGE_WINDOW : ℚ))

/-- The per-round replay loop of `update_player_ratings` (lines 511-514):
position `k` of the result is the rating of the first `k+1` scores. -/
def replay (seq : List ℚ) : List (Option ℚ) :=
  (List.range seq.length).map (fun k => calculate_player_rating (seq.take (k + 1)))

theorem length_lastN (n : Nat) (l : List α) : (lastN n l).length = min n l.length := by
  rw [lastN, List.length_drop, Nat.min_def]
  split <;> omega

theorem lastN_of_le {n : Nat} {l : List α} (h : l.length ≤ n) : lastN n l = l := by
  rw [lastN, Nat.sub_eq_zero_of_le h, List.drop_zero]

theorem mean_lastN_of_ge {l : List ℚ} (h : ROLLING_AVERAGE_WINDOW ≤ l.length) :
    mean (lastN ROLLING_AVERAGE_WINDOW l)
      = (lastN ROLLING_AVERAGE_WINDOW l).sum / (ROLLING_AVERAGE_WINDOW : ℚ) := by
  rw [mean, length_lastN]
  congr 1
  simp
  omega

theorem replay_length (seq : List ℚ) : (replay seq).length = seq.length := by
  simp [replay]

theorem replay_get? (seq : List ℚ) (i : Nat) (h : i < seq.length) :
    (replay seq).get? i = some (calculate_player_rating (seq.take (i + 1))) := by
  rw [replay, List.get?_map, List.get?_range h]
  rfl

/-- C1: the rating function returns the `Unrated` sentinel on fewer than 6
adjusted scores, the arithmetic mean of all scores on at least 6 but fewer
than 40, and the arithmetic mean of the last 40 scores on 40 or more. -/
theorem calculate_player_rating_cases (scores : List ℚ) :
    (scores.length < 6 → calculate_player_rating scores = none)
  ∧ (6 ≤ scores.length → scores.length < 40 →
      calculate_player_rating scores = some (mean scores))
  ∧ (40 ≤ scores.length →
      calculate_player_rating scores = some (mean (lastN 40 scores))) := by
  refine ⟨fun h => ?_, fun h6 h40 => ?_, fun h => ?_⟩
  · simp only [calculate_player_rating, MIN_REQUIRED_SCORES]
    rw [if_pos h]
  · simp only [calculate_player_rating, MIN_REQUIRED_SCORES, ROLLING_AVERAGE_WINDOW, mean]
    rw [if_neg (by omega), if_pos h40]
  · have hlen : (lastN 40 scores).length = 40 := by
      rw [length_lastN, Nat.min_def]
      split <;> omega
    simp only [calculate_player_rating, MIN_REQUIRED_SCORES, ROLLING_AVERAGE_WINDOW, mean, hlen]
    rw [if_neg (by omega), if_neg (by omega)]

/-- Witness for C1 on concrete inputs of length 5, 6 and 41. -/
theorem calculate_player_rating_cases_witness :
    calculate_player_rating [0, 1, 2, -1, 1/2] = none
  ∧ calculate_player_rating [0, 1, 2, -1, 1/2, 3/2]
      = some (mean [0, 1, 2, -1, 1/2, 3/2])
  ∧ calculate_player_rating (List.replicate 41 1)
      = some (mean (lastN 40 (List.replicate 41 1))) :=
  ⟨(calculate_player_rating_cases _).1 (by decide),
   (calculate_player_rating_cases _).2.1 (by decide) (by decide),
   (calculate_player_rating_cases _).2.2 (by decide)⟩

/-- C2: the replay of a score sequence has, at position `k-1` (for
`1 ≤ k ≤ length`), exactly the rating of the first `k` scores; its last
element is the rating of the whole sequence; and the value at position `k-1`
is unchanged when scores after position `k` change (any sequence with the
same first `k` scores replays to the same value there). -/
theorem replay_spec (seq : List ℚ) (k : Nat) (hk1 : 1 ≤ k) (hk2 : k ≤ seq.length) :
    (replay seq).get? (k - 1) = some (calculate_player_rating (seq.take k))
  ∧ (replay seq).getLast? = some (calculate_player_rating seq)
  ∧ ∀ seq' : List ℚ, k ≤ seq'.length → seq.take k = seq'.take k →
      (replay seq').get? (k - 1) = some (calculate_player_rating (seq.take k)) := by
  have hk : k - 1 + 1 = k := by omega
  refine ⟨?_, ?_, ?_⟩
  · rw [replay_get? seq (k - 1) (by omega), hk]
  · have hlen : (replay seq).length = seq.length := replay_length seq
    have hne : seq.length ≠ 0 := by omega
    rw [List.getLast?_eq_get? , hlen, replay_get? seq (seq.length - 1) (by omega)]
    have h1 : seq.length - 1 + 1 = seq.length := by omega
    rw [h1, List.take_length]
  · intro seq' hlen' htake
    rw [replay_get? seq' (k - 1) (by omega), hk, ← htake]

/-- Witness for C2: `k = 6` on a 6-score sequence, with a 7-score extension
that agrees on the first 6 scores. -/
theorem replay_spec_witness :
    (replay [0, 1, 2, -1, 1/2, 3/2]).get? 5
      = some (calculate_player_rating ([0, 1, 2, -1, 1/2, 3/2].take 6))
  ∧ (replay [0, 1, 2, -1, 1/2, 3/2]).getLast?
      = some (calculate_player_rating [0, 1, 2, -1, 1/2, 3/2])
  ∧ (replay [0, 1, 2, -1, 1/2, 3/2, 9]).get? 5
      = some (calculate_player_rating ([0, 1, 2, -1, 1/2, 3/2].take 6)) :=
  ⟨(replay_spec [0, 1, 2, -1, 1/2, 3/2] 6 (by decide) (by decide)).1,
   (replay_spec [0, 1, 2, -1, 1/2, 3/2] 6 (by decide) (by decide)).2.1,
   (replay_spec [0, 1, 2, -1, 1/2, 3/2] 6 (by decide) (by decide)).2.2
     [0, 1, 2, -1, 1/2, 3/2, 9] (by decide) rfl⟩

/-- A row of the pending-scores table (`PENDING_SCORES_TABLE`), as inserted by
`add_score_to_queue`. -/
structure PendingRow where
  timestamp : Int
  hash : String
  course_id : Nat
  player_id : Nat
  player_name : String
  character : String
  score : Int
deriving DecidableEq

/-- A row of the scores table (`SCORES_TABLE`).  `round_id` is the serial
assigned by the store; `rating` is `none` both for the `INVALID_RATING`
sentinel and for a not-yet-written rating column. -/
structure ScoreRow where
  round_id : Nat
  timestamp : Int
  course_id : Nat
  player_id : Nat
  character : String
  score : Int
  adjusted_score : ℚ
  rating : Option ℚ
deriving DecidableEq

/-- A row of the players table (`PLAYERS_TABLE`). -/
structure PlayerRow where
  discord_id : Nat
  player_name : String
  rating : Option ℚ
deriving DecidableEq

/-- The database state: the pending queue, the score ledger, the player table
and the per-course difficulty indices (position `course_id - 1` of `courses`
holds the index of that course, matching `difficulty_indices[course_id - 1]`
in the source), plus the next serial for `round_id`. -/
structure DBState where
  pending : List PendingRow
  scores : List ScoreRow
  players : List PlayerRow
  courses : List ℚ
  next_round_id : Nat
deriving DecidableEq

/-- Comparison used by `ORDER BY timestamp` / `sort(key=lambda x: x[1])`. -/
def tsLe (a b : ScoreRow) : Prop := a.timestamp ≤ b.timestamp

instance : DecidableRel tsLe :=
  fun a b => inferInstanceAs (Decidable (a.timestamp ≤ b.timestamp))

instance : IsTotal ScoreRow tsLe := ⟨fun a b => Int.le_total a.timestamp b.timestamp⟩

instance : IsTrans ScoreRow tsLe := ⟨fun _ _ _ h1 h2 => Int.le_trans h1 h2⟩

/-- `is_queue_empty` from `bot_commands.py`. -/
def is_queue_empty (s : DBState) : Bool := s.pending.isEmpty

/-- `get_pending_round`: first pending row with the given hash (`LIMIT 1`). -/
def get_pending_round (s : DBState) (h : String) : Option PendingRow :=
  s.pending.find? (fun r => r.hash == h)

/-- `get_difficulty_indices`: indices ordered by `course_id`. -/
def get_difficulty_indices (s : DBState) : List ℚ := s.courses

/-- The score row inserted by `verify_score` (rating column not yet written). -/
def newScoreRow (s : DBState) (pr : PendingRow) (adjusted : ℚ) : ScoreRow :=
  { round_id := s.next_round_id, timestamp := pr.timestamp, course_id := pr.course_id,
    player_id := pr.player_id, character := pr.character, score := pr.score,
    adjusted_score := adjusted, rating := none }

/-- The committed effect of the `INSERT INTO SCORES_TABLE` statement. -/
def insertScore (s : DBState) (row : ScoreRow) : DBState :=
  { s with scores := s.scores ++ [row], next_round_id := s.next_round_id + 1 }

/-- The committed effect of `DELETE FROM PENDING_SCORES_TABLE WHERE hash = %s`. -/
def deletePending (s : DBState) (h : String) : DBState :=
  { s with pending := s.pending.filter (fun r => !(r.hash == h)) }

/-- Stable sort by timestamp (`ORDER BY timestamp` on the insertion-ordered
table, and Python's stable `list.sort`). -/
def sortByTimestamp (rows : List ScoreRow) : List ScoreRow := rows.insertionSort tsLe

/-- `SELECT adjusted_score FROM SCORES_TABLE WHERE player_id = %s ORDER BY
timestamp`: the player's full chronological adjusted-score sequence. -/
def playerAdjustedChron (s : DBState) (pid : Nat) : List ℚ :=
  (sortByTimestamp (s.scores.filter (fun r => r.player_id == pid))).map
    (fun r => r.adjusted_score)

/-- The committed effect of `UPDATE SCORES_TABLE SET rating = %s WHERE
player_id = %s AND timestamp = %s`. -/
def setRating (s : DBState) (pid : Nat) (ts : Int) (r : Option ℚ) : DBState :=
  { s with scores := s.scores.map (fun row =>
      if row.player_id == pid && row.timestamp == ts then { row with rating := r } else row) }

/-- The committed effect of the `INSERT ... ON CONFLICT (discord_id) DO UPDATE
SET rating = excluded.rating` statement on the players table. -/
def upsertPlayer (s : DBState) (pid : Nat) (name : String) (r : Option ℚ) : DBState :=
  if s.players.any (fun p => p.discord_id == pid) then
    { s with players := s.players.map (fun p =>
        if p.discord_id == pid then { p with rating := r } else p) }
  else
    { s with players := s.players ++ [{ discord_id := pid, player_name := name, rating := r }] }

/-- `verify_score` from `bot_commands.py` (lines 281-362), happy path and the
failure cases that occur before any write.  The steps after the queue lookup
mirror the source: insert the score row, delete the pending entry, recompute
the player's rating over their full chronological adjusted-score history, set
the new row's rating and upsert the player's current rating. -/
def verify_score (s : DBState) (h : String) : Except String DBState :=
  if is_queue_empty s then Except.error "Queue is currently empty."
  else
    match get_pending_round s h with
    | none => Except.error "ID not found in queue."
    | some pr =>
      match (get_difficulty_indices s).get? (pr.course_id - 1) with
      | none => Except.error "list index out of range"
      | some di =>
        let s1 := insertScore s (newScoreRow s pr ((pr.score : ℚ) - di))
        let s2 := deletePending s1 h
        let newRating := calculate_player_rating (playerAdjustedChron s2 pr.player_id)
        let s3 := setRating s2 pr.player_id pr.timestamp newRating
        let s4 := upsertPlayer s3 pr.player_id pr.player_name newRating
        Except.ok s4

/-- The observable database state when a failure strikes right after the
score-insert statement of `verify_score` committed (`db_helper.insert_single`
commits before returning, and a later failing statement only rolls back
itself); `none` when the failure happens before any write. -/
def verify_score_afterInsert (s : DBState) (h : String) : Option DBState :=
  if is_queue_empty s then none
  else
    match get_pending_round s h with
    | none => none
    | some pr =>
      match (get_difficulty_indices s).get? (pr.course_id - 1) with
      | none => none
      | some di => some (insertScore s (newScoreRow s pr ((pr.score : ℚ) - di)))

/-- `remove_score_from_queue` from `bot_commands.py` (lines 365-393): an
unconditional `DELETE ... WHERE hash = %s` followed by a success message;
a missing hash deletes zero rows and still reports success. -/
def remove_score_from_queue (s : DBState) (h : String) :
    Except String (DBState × String) :=
  Except.ok (deletePending s h, "Successfully removed round " ++ h ++ ".")

theorem upsertPlayer_scores (s : DBState) (pid : Nat) (name : String) (r : Option ℚ) :
    (upsertPlayer s pid name r).scores = s.scores := by
  rw [upsertPlayer]
  split <;> rfl

theorem upsertPlayer_pending (s : DBState) (pid : Nat) (name : String) (r : Option ℚ) :
    (upsertPlayer s pid name r).pending = s.pending := by
  rw [upsertPlayer]
  split <;> rfl

theorem find?_filter_hash (l : List PendingRow) (h : String) :
    (l.filter (fun r => !(r.hash == h))).find? (fun r => r.hash == h) = none := by
  induction l with
  | nil => rfl
  | cons a t ih =>
    by_cases ha : a.hash = h
    · simp [List.filter_cons, ha, ih]
    · simp [List.filter_cons, ha, List.find?_cons, ih]

theorem deletePending_of_not_found {s : DBState} {h : String}
    (hno : get_pending_round s h = none) : deletePending s h = s := by
  rw [get_pending_round, List.find?_eq_none] at hno
  have : s.pending.filter (fun r => !(r.hash == h)) = s.pending := by
    rw [List.filter_eq_self]
    intro a ha
    simpa using hno a ha
  rw [deletePending, this]

theorem find?_map_update_rating (l : List PlayerRow) (pid : Nat) (r : Option ℚ)
    (hmem : ∃ p ∈ l, p.discord_id = pid) :
    ((l.map (fun p => if p.discord_id == pid then { p with rating := r } else p)).find?
      (fun p => p.discord_id == pid)).map PlayerRow.rating = some r := by
  induction l with
  | nil =>
    obtain ⟨p, hp, _⟩ := hmem
    cases hp
  | cons a t ih =>
    by_cases ha : a.discord_id = pid
    · simp [List.find?_cons, ha]
    · obtain ⟨p, hp, hpid⟩ := hmem
      rcases List.mem_cons.mp hp with rfl | hm
      · exact absurd hpid ha
      · have hb : (a.discord_id == pid) = false := by simp [ha]
        simp only [List.map_cons, List.find?_cons, hb, Bool.false_eq_true, if_false]
        exact ih ⟨p, hm, hpid⟩

theorem find?_append_new (l : List PlayerRow) (pid : Nat) (name : String) (r : Option ℚ)
    (hall : ∀ p ∈ l, ¬(p.discord_id = pid)) :
    ((l ++ [{ discord_id := pid, player_name := name, rating := r : PlayerRow }]).find?
      (fun p => p.discord_id == pid)).map PlayerRow.rating = some r := by
  induction l with
  | nil => simp [List.find?_cons]
  | cons a t ih =>
    have ha := hall a (by simp)
    have hb : (a.discord_id == pid) = false := by simp [ha]
    simp only [List.cons_append, List.find?_cons, hb, Bool.false_eq_true, if_false]
    exact ih (fun p hp => hall p (by simp [hp]))

theorem playerRating_upsert (s : DBState) (pid : Nat) (name : String) (r : Option ℚ) :
    ((upsertPlayer s pid name r).players.find? (fun p => p.discord_id == pid)).map
      PlayerRow.rating = some r := by
  rw [upsertPlayer]
  split
  case isTrue hany =>
    rw [List.any_eq_true] at hany
    obtain ⟨p0, hmem, hp0⟩ := hany
    exact find?_map_update_rating s.players pid r ⟨p0, hmem, by simpa using hp0⟩
  case isFalse hany =>
    have hall : ∀ p ∈ s.players, ¬(p.discord_id = pid) := by
      intro p hp hc
      exact hany (List.any_eq_true.mpr ⟨p, hp, by simp [hc]⟩)
    exact find?_append_new s.players pid name r hall

theorem verify_score_not_found (s : DBState) (h : String)
    (hno : get_pending_round s h = none) :
    ∃ msg, verify_score s h = Except.error msg := by
  by_cases hq : is_queue_empty s
  · exact ⟨_, by rw [verify_score, if_pos hq]⟩
  · exact ⟨_, by rw [verify_score, if_neg hq, hno]⟩

/-- C3: verifying a pending submission that is in the queue (with its course
index present) appends a ScoreRecord whose `adjusted_score` is the raw score
minus the course's current difficulty index and whose rating is the rating of
the player's full chronological adjusted-score sequence including the new
score; the player's current rating is set to the same value and the pending
entry is removed.  The freshness hypothesis `hfresh` says no earlier score of
the player shares the new row's timestamp (the `UPDATE ... WHERE player_id
AND timestamp` statement of the source identifies the new row that way). -/
theorem verify_score_spec (s : DBState) (h : String) (pr : PendingRow) (di : ℚ)
    (hfind : get_pending_round s h = some pr)
    (hdi : s.courses.get? (pr.course_id - 1) = some di)
    (hfresh : ∀ r ∈ s.scores,
      ¬(r.player_id = pr.player_id ∧ r.timestamp = pr.timestamp)) :
    ∃ t snap,
      verify_score s h = Except.ok t
      ∧ snap = calculate_player_rating
          (playerAdjustedChron (insertScore s (newScoreRow s pr ((pr.score : ℚ) - di)))
            pr.player_id)
      ∧ (newScoreRow s pr ((pr.score : ℚ) - di)).adjusted_score = (pr.score : ℚ) - di
      ∧ t.scores
          = s.scores ++ [{ newScoreRow s pr ((pr.score : ℚ) - di) with rating := snap }]
      ∧ (t.players.find? (fun p => p.discord_id == pr.player_id)).map PlayerRow.rating
          = some snap
      ∧ get_pending_round t h = none
      ∧ t.pending = s.pending.filter (fun r => !(r.hash == h)) := by
  have hqe : ¬(is_queue_empty s = true) := by
    rcases hp : s.pending with _ | ⟨a, tl⟩
    · rw [get_pending_round, hp] at hfind
      cases hfind
    · rw [is_queue_empty, hp]
      simp
  set row := newScoreRow s pr ((pr.score : ℚ) - di) with hrow
  set snap := calculate_player_rating (playerAdjustedChron (insertScore s row) pr.player_id)
    with hsnap
  refine ⟨upsertPlayer
      (setRating (deletePending (insertScore s row) h) pr.player_id pr.timestamp snap)
      pr.player_id pr.player_name snap, snap, ?_, rfl, rfl, ?_, ?_, ?_, ?_⟩
  · rw [verify_score, if_neg hqe, hfind]
    simp only [get_difficulty_indices]
    rw [hdi]
    rfl
  · rw [upsertPlayer_scores]
    show (s.scores ++ [row]).map _ = _
    rw [List.map_append]
    congr 1
    · have hid : ∀ a ∈ s.scores,
          (if a.player_id == pr.player_id && a.timestamp == pr.timestamp then
            { a with rating := snap } else a) = a := by
        intro a ha
        rw [if_neg]
        simp only [Bool.and_eq_true, beq_iff_eq]
        exact hfresh a ha
      calc s.scores.map _ = s.scores.map id := List.map_congr_left hid
        _ = s.scores := List.map_id s.scores
    · simp [hrow, newScoreRow]
  · exact playerRating_upsert _ _ _ _
  · rw [get_pending_round, upsertPlayer_pending]
    exact find?_filter_hash s.pending h
  · rw [upsertPlayer_pending]
    rfl

/-- The pending submission of the end-to-end scenario: raw score +3 on a
course with difficulty index 3/2, submitted at timestamp 100. -/
def scenarioPending : PendingRow :=
  { timestamp := 100, hash := "r6", course_id := 1, player_id := 7,
    player_name := "alice", character := "Mario", score := 3 }

/-- A previously verified round of player 7 with the given serial, timestamp
and adjusted score. -/
def priorRow (rid : Nat) (ts : Int) (adj : ℚ) : ScoreRow :=
  { round_id := rid, timestamp := ts, course_id := 1, player_id := 7,
    character := "Mario", score := 0, adjusted_score := adj, rating := none }

/-- The end-to-end scenario state: player 7 has five prior adjusted scores
`[0, 1, 2, -1, 1/2]` and one pending submission with raw score +3 on a course
whose difficulty index is 3/2. -/
def scenarioState : DBState :=
  { pending := [scenarioPending],
    scores := [priorRow 1 10 0, priorRow 2 20 1, priorRow 3 30 2,
               priorRow 4 40 (-1), priorRow 5 50 (1/2)],
    players := [{ discord_id := 7, player_name := "alice", rating := none }],
    courses := [3/2],
    next_round_id := 6 }

/-- Witness for C3: the end-to-end scenario.  The new record's adjusted score
is `3 - 3/2 = 3/2` and the recorded rating snapshot is
`mean [0, 1, 2, -1, 1/2, 3/2] = 2/3`. -/
theorem verify_score_spec_witness :
    get_pending_round scenarioState "r6" = some scenarioPending
  ∧ scenarioState.courses.get? (scenarioPending.course_id - 1) = some (3/2)
  ∧ (∀ r ∈ scenarioState.scores,
      ¬(r.player_id = scenarioPending.player_id ∧ r.timestamp = scenarioPending.timestamp))
  ∧ (∃ t snap,
      verify_score scenarioState "r6" = Except.ok t
      ∧ snap = calculate_player_rating
          (playerAdjustedChron
            (insertScore scenarioState
              (newScoreRow scenarioState scenarioPending ((scenarioPending.score : ℚ) - 3/2)))
            scenarioPending.player_id)
      ∧ (newScoreRow scenarioState scenarioPending
          ((scenarioPending.score : ℚ) - 3/2)).adjusted_score
          = (scenarioPending.score : ℚ) - 3/2
      ∧ t.scores = scenarioState.scores
          ++ [{ newScoreRow scenarioState scenarioPending
                  ((scenarioPending.score : ℚ) - 3/2) with rating := snap }]
      ∧ (t.players.find? (fun p => p.discord_id == scenarioPending.player_id)).map
          PlayerRow.rating = some snap
      ∧ get_pending_round t "r6" = none
      ∧ t.pending = scenarioState.pending.filter (fun r => !(r.hash == "r6")))
  ∧ (scenarioPending.score : ℚ) - 3/2 = 3/2
  ∧ calculate_player_rating
      (playerAdjustedChron
        (insertScore scenarioState
          (newScoreRow scenarioState scenarioPending ((scenarioPending.score : ℚ) - 3/2)))
        scenarioPending.player_id) = some (2/3) := by
  refine ⟨rfl, rfl, by decide,
    verify_score_spec scenarioState "r6" scenarioPending (3/2) rfl rfl (by decide), ?_, ?_⟩
  · norm_num [scenarioPending]
  · norm_num [playerAdjustedChron, sortByTimestamp, insertScore, newScoreRow,
      scenarioState, scenarioPending, priorRow, List.insertionSort, List.orderedInsert,
      tsLe, List.filter, calculate_player_rating, MIN_REQUIRED_SCORES,
      ROLLING_AVERAGE_WINDOW, mean]

/-- A pending submission used in the atomicity analysis. -/
def examplePending : PendingRow :=
  { timestamp := 100, hash := "abc", course_id := 1, player_id := 7,
    player_name := "alice", character := "Mario", score := 3 }

/-- A state with one pending submission, an empty ledger and one course. -/
def exampleState : DBState :=
  { pending := [examplePending], scores := [], players := [],
    courses := [3/2], next_round_id := 1 }

/-- Counterexample to C4: at `exampleState`, a failure right after the
score-insert statement committed (each `db_helper` call commits on its own)
leaves an observable state whose ledger has gained a row — with its rating
column still unwritten — while the pending entry is still in the queue: the
ledger and queue are not "exactly as they were before the call". -/
theorem verify_score_not_atomic_counterexample :
    (verify_score_afterInsert exampleState "abc").map (fun t => t.scores.length) = some 1
  ∧ exampleState.scores.length = 0
  ∧ (verify_score_afterInsert exampleState "abc").map
      (fun t => t.scores.map (fun r => r.rating)) = some [none]
  ∧ (verify_score_afterInsert exampleState "abc").map DBState.pending
      = some [examplePending] :=
  ⟨rfl, rfl, rfl, rfl⟩

/-- C4 amended: `verify_score` is atomic only up to its first write.  A
failure before any write (empty queue, unknown id, missing course index)
leaves the state unchanged and surfaces as an error; but once the score
insert has committed, a later failure leaves the new ScoreRecord in the
ledger with its rating unset and the pending entry still queued. -/
theorem verify_score_partial_failure (s : DBState) (h : String) :
    (∀ t, verify_score_afterInsert s h = some t →
       t.pending = s.pending ∧ t.players = s.players ∧ t.courses = s.courses
       ∧ ∃ row, t.scores = s.scores ++ [row] ∧ row.rating = none)
  ∧ (verify_score_afterInsert s h = none →
       ∃ msg, verify_score s h = Except.error msg) := by
  constructor
  · intro t ht
    by_cases hq : is_queue_empty s
    · rw [verify_score_afterInsert, if_pos hq] at ht
      cases ht
    · rcases hfind : get_pending_round s h with _ | pr
      · simp only [verify_score_afterInsert, if_neg hq, hfind] at ht
        cases ht
      · rcases hdi : (get_difficulty_indices s).get? (pr.course_id - 1) with _ | di
        · simp only [verify_score_afterInsert, if_neg hq, hfind, hdi] at ht
          cases ht
        · simp only [verify_score_afterInsert, if_neg hq, hfind, hdi,
            Option.some.injEq] at ht
          subst ht
          exact ⟨rfl, rfl, rfl, newScoreRow s pr ((pr.score : ℚ) - di), rfl, rfl⟩
  · intro hnone
    by_cases hq : is_queue_empty s
    · exact ⟨_, by rw [verify_score, if_pos hq]⟩
    · rcases hfind : get_pending_round s h with _ | pr
      · exact ⟨"ID not found in queue.", by simp only [verify_score, if_neg hq, hfind]⟩
      · rcases hdi : (get_difficulty_indices s).get? (pr.course_id - 1) with _ | di
        · exact ⟨"list index out of range",
            by simp only [verify_score, if_neg hq, hfind, hdi]⟩
        · exfalso
          simp only [verify_score_afterInsert, if_neg hq, hfind, hdi] at hnone
          cases hnone

/-- The state observable after the insert step of `verify_score` at
`exampleState`. -/
def exampleAfterInsert : DBState :=
  insertScore exampleState (newScoreRow exampleState examplePending ((3 : ℚ) - 3/2))

/-- Witness for the amended C4 at `exampleState`. -/
theorem verify_score_partial_failure_witness :
    verify_score_afterInsert exampleState "abc" = some exampleAfterInsert
  ∧ (exampleAfterInsert.pending = exampleState.pending
      ∧ exampleAfterInsert.players = exampleState.players
      ∧ exampleAfterInsert.courses = exampleState.courses
      ∧ ∃ row, exampleAfterInsert.scores = exampleState.scores ++ [row]
          ∧ row.rating = none) :=
  ⟨rfl, (verify_score_partial_failure exampleState "abc").1 exampleAfterInsert rfl⟩

/-- A state whose pending queue is empty. -/
def emptyQueueState : DBState :=
  { pending := [], scores := [], players := [], courses := [0], next_round_id := 1 }

/-- Counterexample to C5: discarding a pending id that is absent from the
queue does not fail with `NotFoundError` — `remove_score_from_queue` runs an
unconditional `DELETE` (removing zero rows) and reports success. -/
theorem discard_missing_succeeds_counterexample :
    get_pending_round emptyQueueState "zzzz" = none
  ∧ remove_score_from_queue emptyQueueState "zzzz"
      = Except.ok (emptyQueueState, "Successfully removed round zzzz.") :=
  ⟨rfl, rfl⟩

/-- C5 amended: `verify` of an id absent from the queue fails with an error
and no state change, and discard-then-verify yields the not-found error with
the ledger unchanged, and a given id transitions at most once (after a
successful verify the id is gone and any further verify fails); but `discard`
of an absent id succeeds silently (deleting nothing) instead of failing with
`NotFoundError`. -/
theorem pending_transitions_spec (s : DBState) (h : String) :
    (get_pending_round s h = none → ∃ msg, verify_score s h = Except.error msg)
  ∧ (get_pending_round s h = none →
       remove_score_from_queue s h
         = Except.ok (s, "Successfully removed round " ++ h ++ "."))
  ∧ (∀ t msg, remove_score_from_queue s h = Except.ok (t, msg) →
       t.scores = s.scores ∧ get_pending_round t h = none
       ∧ ∃ m2, verify_score t h = Except.error m2)
  ∧ (∀ t, verify_score s h = Except.ok t →
       get_pending_round t h = none ∧ ∃ m3, verify_score t h = Except.error m3) := by
  refine ⟨verify_score_not_found s h, ?_, ?_, ?_⟩
  · intro hno
    rw [remove_score_from_queue, deletePending_of_not_found hno]
  · intro t msg hok
    rw [remove_score_from_queue, Except.ok.injEq, Prod.mk.injEq] at hok
    obtain ⟨ht, -⟩ := hok
    subst ht
    have hnone : get_pending_round (deletePending s h) h = none :=
      find?_filter_hash s.pending h
    exact ⟨rfl, hnone, verify_score_not_found _ h hnone⟩
  · intro t hok
    by_cases hq : is_queue_empty s
    · rw [verify_score, if_pos hq] at hok
      cases hok
    · rcases hfind : get_pending_round s h with _ | pr
      · simp only [verify_score, if_neg hq, hfind] at hok
        cases hok
      · rcases hdi : (get_difficulty_indices s).get? (pr.course_id - 1) with _ | di
        · simp only [verify_score, if_neg hq, hfind, hdi] at hok
          cases hok
        · simp only [verify_score, if_neg hq, hfind, hdi, Except.ok.injEq] at hok
          subst hok
          have hnone : get_pending_round
              (upsertPlayer (setRating (deletePending
                  (insertScore s (newScoreRow s pr ((pr.score : ℚ) - di))) h)
                pr.player_id pr.timestamp
                (calculate_player_rating (playerAdjustedChron (deletePending
                  (insertScore s (newScoreRow s pr ((pr.score : ℚ) - di))) h) pr.player_id)))
              pr.player_id pr.player_name
              (calculate_player_rating (playerAdjustedChron (deletePending
                  (insertScore s (newScoreRow s pr ((pr.score : ℚ) - di))) h) pr.player_id)))
              h = none := by
            rw [get_pending_round, upsertPlayer_pending]
            exact find?_filter_hash _ h
          exact ⟨hnone, verify_score_not_found _ h hnone⟩

/-- The state after discarding the only pending entry of `exampleState`. -/
def exampleDiscarded : DBState := deletePending exampleState "abc"

/-- Witness for the amended C5: discard the pending id `"abc"` of
`exampleState`, then verify it — the ledger is unchanged and verify fails. -/
theorem pending_transitions_spec_witness :
    remove_score_from_queue exampleState "abc"
      = Except.ok (exampleDiscarded, "Successfully removed round abc.")
  ∧ (exampleDiscarded.scores = exampleState.scores
      ∧ get_pending_round exampleDiscarded "abc" = none
      ∧ ∃ m2, verify_score exampleDiscarded "abc" = Except.error m2) :=
  ⟨rfl, (pending_transitions_spec exampleState "abc").2.2.1 exampleDiscarded
    "Successfully removed round abc." rfl⟩

/-- One step of the Python `defaultdict(list)` append pattern
(`d[k].append(v)`): update the entry for `k`, creating it at the end in
insertion order if absent. -/
def appendGroup [DecidableEq K] (k : K) (v : α) : List (K × List α) → List (K × List α)
  | [] => [(k, [v])]
  | (k', vs) :: rest =>
    if k' = k then (k', vs ++ [v]) :: rest else (k', vs) :: appendGroup k v rest

/-- `for x in l: d[key x].append(x)` — ordered grouping by a key. -/
def groupByKey [DecidableEq K] (key : α → K) (l : List α) : List (K × List α) :=
  l.foldl (fun acc x => appendGroup (key x) x acc) []

/-- Dictionary lookup on an insertion-ordered association list. -/
def alookup [DecidableEq K] (d : List (K × β)) (k : K) : Option β :=
  (d.find? (fun e => decide (e.1 = k))).map Prod.snd

/-- Group lookup, defaulting to the empty group. -/
def lookupGroup [DecidableEq K] (d : List (K × List α)) (k : K) : List α :=
  (alookup d k).getD []

theorem lookupGroup_cons_eq [DecidableEq K] (ak : K) (avs : List α)
    (t : List (K × List α)) : lookupGroup ((ak, avs) :: t) ak = avs := by
  rw [lookupGroup, alookup, List.find?_cons_of_pos _ (by simp)]
  rfl

theorem lookupGroup_cons_of_ne [DecidableEq K] {ak k : K} (h : ¬ak = k)
    (avs : List α) (t : List (K × List α)) :
    lookupGroup ((ak, avs) :: t) k = lookupGroup t k := by
  rw [lookupGroup, alookup, List.find?_cons_of_neg _ (by simp [h])]
  rfl

theorem lookupGroup_appendGroup [DecidableEq K] (k' k : K) (v : α)
    (d : List (K × List α)) :
    lookupGroup (appendGroup k' v d) k
      = if k' = k then lookupGroup d k ++ [v] else lookupGroup d k := by
  induction d with
  | nil =>
    rw [show appendGroup k' v ([] : List (K × List α)) = [(k', [v])] from rfl]
    by_cases h : k' = k
    · subst h
      rw [lookupGroup_cons_eq, if_pos rfl]
      rfl
    · rw [lookupGroup_cons_of_ne h, if_neg h]
  | cons a t ih =>
    obtain ⟨ak, avs⟩ := a
    rw [appendGroup]
    by_cases ha : ak = k'
    · rw [if_pos ha]
      subst ha
      by_cases h : ak = k
      · subst h
        rw [lookupGroup_cons_eq, lookupGroup_cons_eq, if_pos rfl]
      · simp only [lookupGroup_cons_of_ne h]
        rw [if_neg h]
    · rw [if_neg ha]
      by_cases h : ak = k
      · subst h
        rw [lookupGroup_cons_eq, if_neg (fun hc => ha hc.symm), lookupGroup_cons_eq]
      · simp only [lookupGroup_cons_of_ne h]
        exact ih

theorem lookupGroup_foldl [DecidableEq K] (key : α → K) (l : List α)
    (acc : List (K × List α)) (k : K) :
    lookupGroup (l.foldl (fun a x => appendGroup (key x) x a) acc) k
      = lookupGroup acc k ++ l.filter (fun x => decide (key x = k)) := by
  induction l generalizing acc with
  | nil => simp
  | cons x t ih =>
    rw [List.foldl_cons, ih, lookupGroup_appendGroup]
    by_cases h : key x = k <;>
      simp [List.filter_cons, h, List.append_assoc]

theorem lookupGroup_groupByKey [DecidableEq K] (key : α → K) (l : List α) (k : K) :
    lookupGroup (groupByKey key l) k = l.filter (fun x => decide (key x = k)) := by
  rw [groupByKey, lookupGroup_foldl]
  simp [lookupGroup, alookup]

theorem mem_keys_appendGroup [DecidableEq K] (k' k : K) (v : α)
    (d : List (K × List α)) :
    k ∈ (appendGroup k' v d).map Prod.fst ↔ k = k' ∨ k ∈ d.map Prod.fst := by
  induction d with
  | nil => simp [appendGroup]
  | cons a t ih =>
    obtain ⟨ak, avs⟩ := a
    rw [appendGroup]
    by_cases ha : ak = k'
    · rw [if_pos ha]
      subst ha
      simp only [List.map_cons, List.mem_cons]
      tauto
    · rw [if_neg ha]
      simp only [List.map_cons, List.mem_cons, ih]
      tauto

theorem mem_keys_foldl [DecidableEq K] (key : α → K) (l : List α)
    (acc : List (K × List α)) (k : K) :
    k ∈ (l.foldl (fun a x => appendGroup (key x) x a) acc).map Prod.fst
      ↔ k ∈ acc.map Prod.fst ∨ ∃ x ∈ l, key x = k := by
  induction l generalizing acc with
  | nil => simp
  | cons x t ih =>
    rw [List.foldl_cons, ih, mem_keys_appendGroup]
    constructor
    · rintro ((h | h) | ⟨y, hy, hk⟩)
      · exact Or.inr ⟨x, by simp, h.symm⟩
      · exact Or.inl h
      · exact Or.inr ⟨y, by simp [hy], hk⟩
    · rintro (h | ⟨y, hy, hk⟩)
      · exact Or.inl (Or.inr h)
      · rcases List.mem_cons.mp hy with rfl | hy'
        · exact Or.inl (Or.inl hk.symm)
        · exact Or.inr ⟨y, hy', hk⟩

theorem mem_keys_groupByKey [DecidableEq K] (key : α → K) (l : List α) (k : K) :
    k ∈ (groupByKey key l).map Prod.fst ↔ ∃ x ∈ l, key x = k := by
  rw [groupByKey, mem_keys_foldl]
  simp

theorem values_ne_nil_appendGroup [DecidableEq K] (k : K) (v : α)
    (d : List (K × List α)) (hd : ∀ e ∈ d, e.2 ≠ []) :
    ∀ e ∈ appendGroup k v d, e.2 ≠ [] := by
  induction d with
  | nil =>
    intro e he
    rw [appendGroup, List.mem_singleton] at he
    subst he
    simp
  | cons a t ih =>
    obtain ⟨ak, avs⟩ := a
    intro e he
    rw [appendGroup] at he
    by_cases ha : ak = k
    · rw [if_pos ha] at he
      rcases List.mem_cons.mp he with heq | hm
      · subst heq
        simp
      · exact hd e (List.mem_cons_of_mem _ hm)
    · rw [if_neg ha] at he
      rcases List.mem_cons.mp he with heq | hm
      · subst heq
        exact hd (ak, avs) (by simp)
      · exact ih (fun e' he' => hd e' (List.mem_cons_of_mem _ he')) e hm

theorem values_ne_nil_foldl [DecidableEq K] (key : α → K) (l : List α)
    (acc : List (K × List α)) (hacc : ∀ e ∈ acc, e.2 ≠ []) :
    ∀ e ∈ l.foldl (fun a x => appendGroup (key x) x a) acc, e.2 ≠ [] := by
  induction l generalizing acc with
  | nil => exact hacc
  | cons x t ih =>
    rw [List.foldl_cons]
    exact ih _ (values_ne_nil_appendGroup (key x) x acc hacc)

theorem values_ne_nil_groupByKey [DecidableEq K] (key : α → K) (l : List α) :
    ∀ e ∈ groupByKey key l, e.2 ≠ [] :=
  values_ne_nil_foldl key l [] (by simp)

theorem appendGroup_ne_nil [DecidableEq K] (k : K) (v : α)
    (d : List (K × List α)) : appendGroup k v d ≠ [] := by
  cases d with
  | nil => simp [appendGroup]
  | cons a t =>
    obtain ⟨ak, avs⟩ := a
    rw [appendGroup]
    split <;> simp

theorem foldl_groups_ne_nil [DecidableEq K] (key : α → K) (l : List α)
    (acc : List (K × List α)) (hacc : acc ≠ []) :
    l.foldl (fun a x => appendGroup (key x) x a) acc ≠ [] := by
  induction l generalizing acc with
  | nil => exact hacc
  | cons x t ih =>
    rw [List.foldl_cons]
    exact ih _ (appendGroup_ne_nil (key x) x acc)

theorem groupByKey_ne_nil [DecidableEq K] (key : α → K) {l : List α}
    (hl : l ≠ []) : groupByKey key l ≠ [] := by
  cases l with
  | nil => exact absurd rfl hl
  | cons x t =>
    rw [groupByKey, List.foldl_cons]
    exact foldl_groups_ne_nil key t _ (appendGroup_ne_nil (key x) x [])

theorem alookup_map_pair [DecidableEq K] (f : K → β → γ) (d : List (K × β)) (k : K) :
    alookup (d.map (fun e => (e.1, f e.1 e.2))) k = (alookup d k).map (f k) := by
  induction d with
  | nil => rfl
  | cons a t ih =>
    obtain ⟨ak, av⟩ := a
    by_cases h : ak = k
    · subst h
      rw [List.map_cons, alookup, List.find?_cons_of_pos _ (by simp),
        alookup, List.find?_cons_of_pos _ (by simp)]
      rfl
    · rw [List.map_cons, alookup, List.find?_cons_of_neg _ (by simp [h]),
        alookup, List.find?_cons_of_neg _ (by simp [h])]
      exact ih

theorem alookup_eq_some_lookupGroup [DecidableEq K] {d : List (K × List α)} {k : K}
    {v : List α} (h : alookup d k = some v) : lookupGroup d k = v := by
  rw [lookupGroup, h]
  rfl

theorem alookup_isSome_iff_mem_keys [DecidableEq K] (d : List (K × β)) (k : K) :
    (alookup d k).isSome = true ↔ k ∈ d.map Prod.fst := by
  induction d with
  | nil => simp [alookup]
  | cons a t ih =>
    obtain ⟨ak, av⟩ := a
    by_cases h : ak = k
    · subst h
      simp [alookup, List.find?_cons]
    · have hfind : (((ak, av) : K × β) :: t).find? (fun e => decide (e.1 = k))
          = t.find? (fun e => decide (e.1 = k)) :=
        List.find?_cons_of_neg _ (by simp [h])
      rw [alookup, hfind]
      simp only [List.map_cons, List.mem_cons]
      rw [show ((t.find? (fun e => decide (e.1 = k))).map Prod.snd).isSome = true
          ↔ (alookup t k).isSome = true from Iff.rfl, ih]
      constructor
      · exact Or.inr
      · rintro (rfl | hm)
        · exact absurd rfl h
        · exact hm

theorem orderedInsert_of_forall_le {r : α → α → Prop} [DecidableRel r] (a : α)
    (l : List α) (h : ∀ b ∈ l, r a b) : l.orderedInsert r a = a :: l := by
  cases l with
  | nil => rfl
  | cons b t => rw [List.orderedInsert, if_pos (h b (by simp))]

theorem filter_orderedInsert {r : α → α → Prop} [DecidableRel r] [IsTrans α r]
    (p : α → Bool) (a : α) (l : List α) (hl : l.Sorted r) :
    (l.orderedInsert r a).filter p
      = if p a then (l.filter p).orderedInsert r a else l.filter p := by
  induction l with
  | nil => by_cases hpa : p a <;> simp [List.orderedInsert, hpa]
  | cons b t ih =>
    by_cases hab : r a b
    · rw [List.orderedInsert, if_pos hab]
      by_cases hpa : p a
      · rw [if_pos hpa]
        by_cases hpb : p b
        · rw [List.filter_cons_of_pos (by exact hpa), List.filter_cons_of_pos hpb,
            List.orderedInsert, if_pos hab]
        · have hall : ∀ c ∈ t.filter p, r a c := by
            intro c hc
            have hc' : c ∈ t := (List.mem_filter.mp hc).1
            exact Trans.trans hab (List.rel_of_sorted_cons hl c hc')
          rw [List.filter_cons_of_pos (by exact hpa), List.filter_cons_of_neg hpb,
            orderedInsert_of_forall_le a _ hall]
      · rw [if_neg hpa, List.filter_cons_of_neg (by simpa using hpa)]
    · rw [List.orderedInsert, if_neg hab]
      specialize ih hl.of_cons
      by_cases hpb : p b
      · rw [List.filter_cons_of_pos hpb, List.filter_cons_of_pos hpb, ih]
        by_cases hpa : p a
        · rw [if_pos hpa, if_pos hpa, List.orderedInsert, if_neg hab]
        · rw [if_neg hpa, if_neg hpa]
      · rw [List.filter_cons_of_neg hpb, List.filter_cons_of_neg hpb, ih]

theorem filter_insertionSort {r : α → α → Prop} [DecidableRel r] [IsTotal α r]
    [IsTrans α r] (p : α → Bool) (l : List α) :
    (l.insertionSort r).filter p = (l.filter p).insertionSort r := by
  induction l with
  | nil => rfl
  | cons a t ih =>
    rw [List.insertionSort,
      filter_orderedInsert p a _ (List.sorted_insertionSort r t), ih]
    by_cases hpa : p a
    · rw [if_pos hpa, List.filter_cons_of_pos (by exact hpa), List.insertionSort]
    · rw [if_neg hpa, List.filter_cons_of_neg (by simpa using hpa)]

/-- `NUM_REQUIRED_SCORES` from `update_difficulty_indices`. -/
def NUM_REQUIRED_SCORES : Nat := 8

/-- Number of score rows of a player on a course (the inner correlated
`SELECT COUNT(s.course_id) ... WHERE s.player_id = ... AND s.course_id = ...`
of the eligibility query). -/
def countScoresOn (scores : List ScoreRow) (pid cid : Nat) : Nat :=
  (scores.filter (fun r => r.player_id == pid && r.course_id == cid)).length

/-- The eligibility subquery of `update_difficulty_indices`: the number of
distinct roster courses on which the player has at least 8 rounds equals the
total number of roster courses. -/
def eligibleB (scores : List ScoreRow) (roster : List Nat) (pid : Nat) : Bool :=
  (roster.filter
      (fun cid => NUM_REQUIRED_SCORES ≤ countScoresOn scores pid cid)).length
    == roster.length

/-- Membership of a player id in the players table (`p.discord_id IN ...`). -/
def registeredB (players : List PlayerRow) (pid : Nat) : Bool :=
  players.any (fun p => p.discord_id == pid)

/-- The rows returned by the eligibility `SELECT` of
`update_difficulty_indices`: all score rows of registered, eligible players. -/
def selectedScores (st : DBState) (roster : List Nat) : List ScoreRow :=
  st.scores.filter (fun r =>
    registeredB st.players r.player_id && eligibleB st.scores roster r.player_id)

/-- `player_data`: selected rows sorted by timestamp then grouped by player
in insertion order (the `scores.sort` and `defaultdict` loop). -/
def player_data (st : DBState) (roster : List Nat) : List (Nat × List ScoreRow) :=
  groupByKey (fun r => r.player_id) (sortByTimestamp (selectedScores st roster))

/-- `player_course_averages`: per player, per course, the average of the
most recent (up to 8) raw scores (`scores[-8:]`). -/
def player_course_averages (st : DBState) (roster : List Nat) :
    List (Nat × List (Nat × ℚ)) :=
  (player_data st roster).map (fun e =>
    (e.1, (groupByKey (fun r => r.course_id) e.2).map (fun g =>
      (g.1, mean (lastN NUM_REQUIRED_SCORES (g.2.map (fun r => (r.score : ℚ))))))))

/-- The `(course, player, average)` triples in the iteration order of the
`course_averages_by_player` double loop. -/
def pcaPairs (st : DBState) (roster : List Nat) : List (Nat × Nat × ℚ) :=
  ((player_course_averages st roster).map (fun e =>
    e.2.map (fun g => (g.1, e.1, g.2)))).join

/-- `course_averages_by_player`: the per-player averages regrouped by course. -/
def course_averages_by_player (st : DBState) (roster : List Nat) :
    List (Nat × List (Nat × Nat × ℚ)) :=
  groupByKey (fun t => t.1) (pcaPairs st roster)

/-- `final_averages`: per course, the average over eligible players of their
per-course averages. -/
def final_averages (st : DBState) (roster : List Nat) : List (Nat × ℚ) :=
  (course_averages_by_player st roster).map (fun e =>
    (e.1, mean (e.2.map (fun t => t.2.2))))

/-- `overall_avg`: the mean of the course averages. -/
def overall_avg (st : DBState) (roster : List Nat) : ℚ :=
  mean ((final_averages st roster).map Prod.snd)

/-- The `(course, difficulty_index)` pairs computed by
`update_difficulty_indices`; `none` models the `ZeroDivisionError` raised by
`sum(...) / len(final_averages)` when no course average exists. -/
def update_difficulty_indices_result (st : DBState) (roster : List Nat) :
    Option (List (Nat × ℚ)) :=
  if final_averages st roster = [] then none
  else some ((final_averages st roster).map (fun e =>
    (e.1, e.2 - overall_avg st roster)))

theorem alookup_map_snd [DecidableEq K] (f : β → γ) (d : List (K × β)) (k : K) :
    alookup (d.map (fun e => (e.1, f e.2))) k = (alookup d k).map f := by
  induction d with
  | nil => rfl
  | cons a t ih =>
    obtain ⟨ak, av⟩ := a
    by_cases h : ak = k
    · subst h
      rw [List.map_cons, alookup, List.find?_cons_of_pos _ (by simp),
        alookup, List.find?_cons_of_pos _ (by simp)]
      rfl
    · rw [List.map_cons, alookup, List.find?_cons_of_neg _ (by simp [h]),
        alookup, List.find?_cons_of_neg _ (by simp [h])]
      exact ih

theorem eligibleB_iff (scores : List ScoreRow) (roster : List Nat) (pid : Nat) :
    eligibleB scores roster pid = true
      ↔ ∀ cid ∈ roster, NUM_REQUIRED_SCORES ≤ countScoresOn scores pid cid := by
  rw [eligibleB, beq_iff_eq]
  constructor
  · intro h cid hc
    have heq := (List.filter_sublist (l := roster)).eq_of_length h
    rw [List.filter_eq_self] at heq
    simpa using heq cid hc
  · intro h
    rw [List.filter_eq_self.mpr (fun a ha => by simpa using h a ha)]

theorem exists_row_of_eligible {st : DBState} {roster : List Nat} {pid : Nat}
    (hr : roster ≠ []) (he : eligibleB st.scores roster pid = true) :
    ∃ row ∈ st.scores, row.player_id = pid := by
  obtain ⟨c, hc⟩ := List.exists_mem_of_ne_nil roster hr
  have h8 : 8 ≤ countScoresOn st.scores pid c := (eligibleB_iff _ _ _).mp he c hc
  have hpos : 0 < (st.scores.filter
      (fun r => r.player_id == pid && r.course_id == c)).length := by
    rw [countScoresOn] at h8
    omega
  obtain ⟨row, hrow⟩ := List.exists_mem_of_ne_nil _ (List.length_pos.mp hpos)
  have hm := List.mem_filter.mp hrow
  refine ⟨row, hm.1, ?_⟩
  have hm2 := hm.2
  simp only [Bool.and_eq_true, beq_iff_eq] at hm2
  exact hm2.1

theorem keys_player_course_averages (st : DBState) (roster : List Nat) :
    (player_course_averages st roster).map Prod.fst
      = (player_data st roster).map Prod.fst := by
  rw [player_course_averages, List.map_map]
  rfl

theorem sum_map_sub_const (l : List ℚ) (m : ℚ) :
    (l.map (fun x => x - m)).sum = l.sum - l.length * m := by
  induction l with
  | nil => simp
  | cons x t ih =>
    simp only [List.map_cons, List.sum_cons, ih, List.length_cons]
    push_cast
    ring

theorem mean_map_sub_mean {l : List ℚ} (hl : l ≠ []) :
    mean (l.map (fun x => x - mean l)) = 0 := by
  have hn : (l.length : ℚ) ≠ 0 := by
    have := List.length_pos.mpr hl
    exact_mod_cast Nat.pos_iff_ne_zero.mp this
  rw [mean, sum_map_sub_const, List.length_map]
  rw [show mean l = l.sum / l.length from rfl]
  field_simp

theorem lastN_ne_nil {n : Nat} (hn : 0 < n) {l : List α} (hl : l ≠ []) :
    lastN n l ≠ [] := by
  intro hc
  have hlen := length_lastN n l
  rw [hc, List.length_nil, Nat.min_def] at hlen
  have h1 : 0 < l.length := List.length_pos.mpr hl
  split at hlen <;> omega

theorem mem_selectedScores {st : DBState} {roster : List Nat} {row : ScoreRow}
    (hmem : row ∈ st.scores) (hreg : registeredB st.players row.player_id = true)
    (helig : eligibleB st.scores roster row.player_id = true) :
    row ∈ selectedScores st roster := by
  rw [selectedScores, List.mem_filter]
  exact ⟨hmem, by rw [hreg, helig]; rfl⟩

theorem sortByTimestamp_perm (l : List ScoreRow) :
    List.Perm (sortByTimestamp l) l :=
  List.perm_insertionSort tsLe l

theorem final_averages_ne_nil (st : DBState) (roster : List Nat) (hr : roster ≠ [])
    (hex : ∃ pid, registeredB st.players pid = true
      ∧ eligibleB st.scores roster pid = true) :
    final_averages st roster ≠ [] := by
  obtain ⟨pid, hreg, helig⟩ := hex
  obtain ⟨row, hrowmem, hrowpid⟩ := exists_row_of_eligible hr helig
  have hsel : row ∈ selectedScores st roster :=
    mem_selectedScores hrowmem (by rw [hrowpid]; exact hreg) (by rw [hrowpid]; exact helig)
  have hsortne : sortByTimestamp (selectedScores st roster) ≠ [] :=
    List.ne_nil_of_mem ((sortByTimestamp_perm _).mem_iff.mpr hsel)
  have hpd : player_data st roster ≠ [] := groupByKey_ne_nil _ hsortne
  obtain ⟨e, he⟩ := List.exists_mem_of_ne_nil _ hpd
  have hev : e.2 ≠ [] := values_ne_nil_groupByKey _ _ e he
  have hinner : ((groupByKey (fun r => r.course_id) e.2).map (fun g =>
      (g.1, mean (lastN NUM_REQUIRED_SCORES (g.2.map (fun r => (r.score : ℚ))))))) ≠ [] := by
    intro hc
    exact groupByKey_ne_nil _ hev (List.map_eq_nil.mp hc)
  have hpairs : pcaPairs st roster ≠ [] := by
    rw [pcaPairs]
    intro hc
    rw [List.join_eq_nil] at hc
    have hmemmap : (fun e => e.2.map (fun g => (g.1, e.1, g.2)))
          ((fun e => (e.1, (groupByKey (fun r => r.course_id) e.2).map (fun g =>
            (g.1, mean (lastN NUM_REQUIRED_SCORES (g.2.map (fun r => (r.score : ℚ)))))))) e)
        ∈ (player_course_averages st roster).map
            (fun e => e.2.map (fun g => (g.1, e.1, g.2))) := by
      apply List.mem_map_of_mem
      rw [player_course_averages]
      exact List.mem_map_of_mem _ he
    have := hc _ hmemmap
    rw [List.map_eq_nil] at this
    exact hinner this
  have hcabp : course_averages_by_player st roster ≠ [] := groupByKey_ne_nil _ hpairs
  rw [final_averages]
  intro hc
  exact hcabp (List.map_eq_nil.mp hc)

/-- C7: for a nonempty roster with at least one eligible registered player,
the produced difficulty indices are zero-centered: their unweighted mean is
exactly zero (in exact rational arithmetic). -/
theorem difficulty_indices_zero_centered (st : DBState) (roster : List Nat)
    (hr : roster ≠ [])
    (hex : ∃ pid, registeredB st.players pid = true
      ∧ eligibleB st.scores roster pid = true) :
    ∃ out, update_difficulty_indices_result st roster = some out
      ∧ out ≠ [] ∧ mean (out.map Prod.snd) = 0 := by
  have hfa := final_averages_ne_nil st roster hr hex
  rw [update_difficulty_indices_result, if_neg hfa]
  refine ⟨_, rfl, ?_, ?_⟩
  · intro hc
    exact hfa (List.map_eq_nil.mp hc)
  · have h2 : ((final_averages st roster).map
        (fun e => (e.1, e.2 - overall_avg st roster))).map Prod.snd
        = ((final_averages st roster).map Prod.snd).map
            (fun x => x - mean ((final_averages st roster).map Prod.snd)) := by
      rw [List.map_map, List.map_map]
      rfl
    rw [h2]
    exact mean_map_sub_mean (fun hc => hfa (List.map_eq_nil.mp hc))

/-- A score row of the one-course witness ledger: player 7, course 1,
raw score 2. -/
def idxRow (rid : Nat) (ts : Int) : ScoreRow :=
  { round_id := rid, timestamp := ts, course_id := 1, player_id := 7,
    character := "Mario", score := 2, adjusted_score := 0, rating := none }

/-- A state where player 7 has exactly 8 rounds on the single roster course,
so they are eligible; the stored difficulty index of course 1 is 5. -/
def eightRoundState : DBState :=
  { pending := [],
    scores := [idxRow 1 10, idxRow 2 20, idxRow 3 30, idxRow 4 40,
               idxRow 5 50, idxRow 6 60, idxRow 7 70, idxRow 8 80],
    players := [{ discord_id := 7, player_name := "alice", rating := none }],
    courses := [5], next_round_id := 9 }

/-- Witness for C7 on the one-course, one-eligible-player state. -/
theorem difficulty_indices_zero_centered_witness :
    ([1] : List Nat) ≠ []
  ∧ registeredB eightRoundState.players 7 = true
  ∧ eligibleB eightRoundState.scores [1] 7 = true
  ∧ ∃ out, update_difficulty_indices_result eightRoundState [1] = some out
      ∧ out ≠ [] ∧ mean (out.map Prod.snd) = 0 :=
  ⟨by decide, by decide, by decide,
    difficulty_indices_zero_centered eightRoundState [1] (by decide)
      ⟨7, by decide, by decide⟩⟩

theorem triple_filter_eq (l : List ScoreRow) (P : ScoreRow → Bool) (pid cid : Nat)
    (hP : ∀ r : ScoreRow, r.player_id = pid → P r = true) :
    ((l.filter P).filter (fun r => decide (r.player_id = pid))).filter
        (fun r => decide (r.course_id = cid))
      = l.filter (fun r => r.player_id == pid && r.course_id == cid) := by
  induction l with
  | nil => rfl
  | cons a t ih =>
    by_cases hp : a.player_id = pid
    · rw [List.filter_cons_of_pos (hP a hp),
        List.filter_cons_of_pos (by simpa using hp)]
      by_cases hc : a.course_id = cid
      · rw [List.filter_cons_of_pos (by simpa using hc),
          List.filter_cons_of_pos (by simp [hp, hc]), ih]
      · rw [List.filter_cons_of_neg (by simpa using hc),
          List.filter_cons_of_neg (by simp [hp, hc]), ih]
    · by_cases hPa : P a = true
      · rw [List.filter_cons_of_pos hPa, List.filter_cons_of_neg (by simpa using hp),
          List.filter_cons_of_neg (by simp [hp]), ih]
      · rw [List.filter_cons_of_neg (by simpa using hPa),
          List.filter_cons_of_neg (by simp [hp]), ih]

/-- C6: with a nonempty course roster, a (registered) player appears in the
per-player course averages if and only if they have at least 8 recorded
rounds on every roster course; and each recorded `player_course_average` is
the mean of the most recent `min(8, available)` raw scores of that player on
that course, taken in timestamp order. -/
theorem difficulty_eligibility_and_averages (st : DBState) (roster : List Nat)
    (hr : roster ≠ []) :
    (∀ pid, registeredB st.players pid = true →
       (pid ∈ (player_course_averages st roster).map Prod.fst
         ↔ ∀ cid ∈ roster, NUM_REQUIRED_SCORES ≤ countScoresOn st.scores pid cid))
  ∧ (∀ pid inner cid avg,
       alookup (player_course_averages st roster) pid = some inner →
       alookup inner cid = some avg →
       avg = mean (lastN NUM_REQUIRED_SCORES
         ((sortByTimestamp (st.scores.filter
             (fun r => r.player_id == pid && r.course_id == cid))).map
           (fun r => (r.score : ℚ))))) := by
  constructor
  · intro pid hreg
    rw [keys_player_course_averages, player_data, mem_keys_groupByKey]
    constructor
    · rintro ⟨x, hx, rfl⟩
      have hx' : x ∈ selectedScores st roster :=
        (sortByTimestamp_perm _).mem_iff.mp hx
      have hsel := (List.mem_filter.mp hx').2
      simp only [Bool.and_eq_true] at hsel
      exact (eligibleB_iff _ _ _).mp hsel.2
    · intro hall
      have helig := (eligibleB_iff _ _ _).mpr hall
      obtain ⟨row, hmem, hpid⟩ := exists_row_of_eligible hr helig
      have hsel : row ∈ selectedScores st roster :=
        mem_selectedScores hmem (by rw [hpid]; exact hreg)
          (by rw [hpid]; exact helig)
      exact ⟨row, (sortByTimestamp_perm _).mem_iff.mpr hsel, hpid⟩
  · intro pid inner cid avg hpca hinner
    rw [player_course_averages,
      alookup_map_snd (fun (v : List ScoreRow) =>
        (groupByKey (fun r => r.course_id) v).map
          (fun g => (g.1, mean (lastN NUM_REQUIRED_SCORES
            (g.2.map (fun r => (r.score : ℚ)))))))] at hpca
    obtain ⟨rnds, hrnds, hinnerdef⟩ := Option.map_eq_some'.mp hpca
    subst hinnerdef
    rw [alookup_map_snd (fun (v : List ScoreRow) => mean (lastN NUM_REQUIRED_SCORES
      (v.map (fun r => (r.score : ℚ)))))] at hinner
    obtain ⟨grp, hgrp, havg⟩ := Option.map_eq_some'.mp hinner
    have hgrp' : grp = rnds.filter (fun r => decide (r.course_id = cid)) := by
      have h := alookup_eq_some_lookupGroup hgrp
      rw [lookupGroup_groupByKey] at h
      exact h.symm
    have hrnds' : rnds = (sortByTimestamp (selectedScores st roster)).filter
        (fun r => decide (r.player_id = pid)) := by
      have h := alookup_eq_some_lookupGroup hrnds
      rw [player_data, lookupGroup_groupByKey] at h
      exact h.symm
    have hpidmem : ∃ x ∈ selectedScores st roster, x.player_id = pid := by
      have hk : pid ∈ (player_data st roster).map Prod.fst :=
        (alookup_isSome_iff_mem_keys _ _).mp (by rw [hrnds]; rfl)
      rw [player_data, mem_keys_groupByKey] at hk
      obtain ⟨x, hx, hxe⟩ := hk
      exact ⟨x, (sortByTimestamp_perm _).mem_iff.mp hx, hxe⟩
    obtain ⟨x0, hx0sel, hx0pid⟩ := hpidmem
    have hx0f := (List.mem_filter.mp hx0sel).2
    rw [hx0pid] at hx0f
    simp only [Bool.and_eq_true] at hx0f
    have hreg : registeredB st.players pid = true := hx0f.1
    have helig : eligibleB st.scores roster pid = true := hx0f.2
    have hPsel : ∀ r : ScoreRow, r.player_id = pid →
        (registeredB st.players r.player_id
          && eligibleB st.scores roster r.player_id) = true := by
      intro r hrp
      rw [hrp, hreg, helig]
      rfl
    have hchain : rnds.filter (fun r => decide (r.course_id = cid))
        = sortByTimestamp (st.scores.filter
            (fun r => r.player_id == pid && r.course_id == cid)) := by
      rw [hrnds']
      simp only [sortByTimestamp, selectedScores]
      rw [filter_insertionSort, filter_insertionSort,
        triple_filter_eq st.scores _ pid cid hPsel]
    rw [← havg, hgrp', hchain]

/-- Witness for C6 at the one-course, one-eligible-player state. -/
theorem difficulty_eligibility_and_averages_witness :
    ([1] : List Nat) ≠ []
  ∧ ((∀ pid, registeredB eightRoundState.players pid = true →
       (pid ∈ (player_course_averages eightRoundState [1]).map Prod.fst
         ↔ ∀ cid ∈ ([1] : List Nat),
             NUM_REQUIRED_SCORES ≤ countScoresOn eightRoundState.scores pid cid))
    ∧ (∀ pid inner cid avg,
       alookup (player_course_averages eightRoundState [1]) pid = some inner →
       alookup inner cid = some avg →
       avg = mean (lastN NUM_REQUIRED_SCORES
         ((sortByTimestamp (eightRoundState.scores.filter
             (fun r => r.player_id == pid && r.course_id == cid))).map
           (fun r => (r.score : ℚ)))))) :=
  ⟨by decide, difficulty_eligibility_and_averages eightRoundState [1] (by decide)⟩

/-- C10: if no registered player meets the eligibility bar, the selected
rows and the set of course averages are empty and the overall-average step
divides by zero (modelled as `none`); excluding that case (nonempty roster
and at least one eligible registered player) the computation is total, and
every division in it has a nonzero divisor: the per-(player, course)
recent-scores lists, the per-course player-average lists and the course
average list are all nonempty. -/
theorem difficulty_indices_totality (st : DBState) (roster : List Nat) :
    ((∀ pid, registeredB st.players pid = true →
        eligibleB st.scores roster pid = false) →
       selectedScores st roster = []
       ∧ final_averages st roster = []
       ∧ update_difficulty_indices_result st roster = none)
  ∧ ((roster ≠ [] ∧ ∃ pid, registeredB st.players pid = true
        ∧ eligibleB st.scores roster pid = true) →
       final_averages st roster ≠ []
       ∧ (update_difficulty_indices_result st roster).isSome = true)
  ∧ (∀ e ∈ player_data st roster, e.2 ≠ [])
  ∧ (∀ e ∈ player_data st roster, ∀ g ∈ groupByKey (fun r => r.course_id) e.2,
       lastN NUM_REQUIRED_SCORES (g.2.map (fun r => (r.score : ℚ))) ≠ [])
  ∧ (∀ e ∈ course_averages_by_player st roster, e.2 ≠ []) := by
  refine ⟨?_, ?_, ?_, ?_, ?_⟩
  · intro hno
    have hsel : selectedScores st roster = [] := by
      rw [selectedScores, List.filter_eq_nil]
      intro r hrmem
      by_cases hreg : registeredB st.players r.player_id = true
      · simp [hreg, hno r.player_id hreg]
      · rw [Bool.not_eq_true] at hreg
        simp [hreg]
    have hfa : final_averages st roster = [] := by
      simp only [final_averages, course_averages_by_player, pcaPairs,
        player_course_averages, player_data, hsel]
      rfl
    refine ⟨hsel, hfa, ?_⟩
    rw [update_difficulty_indices_result, if_pos hfa]
  · rintro ⟨hr, hex⟩
    have hfa := final_averages_ne_nil st roster hr hex
    refine ⟨hfa, ?_⟩
    rw [update_difficulty_indices_result, if_neg hfa]
    rfl
  · exact values_ne_nil_groupByKey _ _
  · intro e he g hg
    have hg2 := values_ne_nil_groupByKey _ _ g hg
    exact lastN_ne_nil (by decide) (fun hc => hg2 (List.map_eq_nil.mp hc))
  · exact values_ne_nil_groupByKey _ _

/-- A state with a registered player but no score rows, so nobody is
eligible. -/
def noEligibleState : DBState :=
  { pending := [], scores := [],
    players := [{ discord_id := 7, player_name := "alice", rating := none }],
    courses := [0], next_round_id := 1 }

/-- Witness for C10: with no eligible player the computation yields the
division-by-zero `none`; with one eligible player it succeeds. -/
theorem difficulty_indices_totality_witness :
    (selectedScores noEligibleState [1] = []
      ∧ final_averages noEligibleState [1] = []
      ∧ update_difficulty_indices_result noEligibleState [1] = none)
  ∧ (final_averages eightRoundState [1] ≠ []
      ∧ (update_difficulty_indices_result eightRoundState [1]).isSome = true) :=
  ⟨(difficulty_indices_totality noEligibleState [1]).1 (fun pid _ => rfl),
   (difficulty_indices_totality eightRoundState [1]).2.1
     ⟨by decide, 7, by decide, by decide⟩⟩

/-- One row of the `update_adjusted_scores` recomputation:
`entry[3] = entry[2] - indices[entry[1] - 1]`; `none` models the IndexError
raised (before any database write) when the course has no stored index. -/
def adjustRow (courses : List ℚ) (r : ScoreRow) : Option ScoreRow :=
  (courses.get? (r.course_id - 1)).map
    (fun di => { r with adjusted_score := (r.score : ℚ) - di })

/-- `update_adjusted_scores` from `bot_commands.py` (lines 429-462): rewrite
every ScoreRecord's adjusted score from the currently stored difficulty
indices (a single bulk update, committed at the end). -/
def update_adjusted_scores_state (s : DBState) : Option DBState :=
  (s.scores.mapM (adjustRow s.courses)).map (fun rows => { s with scores := rows })

/-- The per-player replay loop of `update_player_ratings`: sort the player's
rows by timestamp and pair each `round_id` with the rating of the adjusted
scores up to and including that round. -/
def replayRows (rows : List ScoreRow) : List (Nat × Option ℚ) :=
  (sortByTimestamp rows).enum.map (fun ie =>
    (ie.2.round_id, calculate_player_rating
      (((sortByTimestamp rows).take (ie.1 + 1)).map (fun r => r.adjusted_score))))

/-- `flattened_score_data` of `update_player_ratings`: the
`(round_id, rating)` pairs over all players, players in first-occurrence
order of the ledger. -/
def allNewRatings (s : DBState) : List (Nat × Option ℚ) :=
  ((groupByKey (fun r => r.player_id) s.scores).map (fun e => replayRows e.2)).join

/-- `current_ratings` of `update_player_ratings`: each player's rating after
their most recent round (`score_data_dict[player_id][-1][4]`). -/
def currentRatings (s : DBState) : List (Nat × Option ℚ) :=
  (groupByKey (fun r => r.player_id) s.scores).map (fun e =>
    (e.1, match (replayRows e.2).getLast? with
          | some p => p.2
          | none => none))

/-- `update_player_ratings` from `bot_commands.py` (lines 465-540): write the
replayed ratings back by `round_id` and the current ratings into the players
table by `discord_id` (rows and players without a matching entry keep their
values, as in the SQL `UPDATE ... FROM (VALUES ...)`). -/
def update_player_ratings_state (s : DBState) : DBState :=
  { s with
    scores := s.scores.map (fun r =>
      match alookup (allNewRatings s) r.round_id with
      | some nr => { r with rating := nr }
      | none => r),
    players := s.players.map (fun p =>
      match alookup (currentRatings s) p.discord_id with
      | some nr => { p with rating := nr }
      | none => p) }

/-- The recomputation prelude of `generate_rankings_table` (lines 543-561):
it calls `update_adjusted_scores` and `update_player_ratings` — and does not
call `update_difficulty_indices` (whose periodic task is commented out in
`bot.py`). -/
def generate_rankings_pipeline (s : DBState) : Option DBState :=
  (update_adjusted_scores_state s).map update_player_ratings_state

theorem mapM_option_forall2 {α β : Type _} {f : α → Option β} :
    ∀ {l : List α} {l' : List β}, l.mapM f = some l' →
      List.Forall₂ (fun a b => f a = some b) l l' := by
  intro l
  induction l with
  | nil =>
    intro l' h
    rw [List.mapM_nil] at h
    cases h
    exact List.Forall₂.nil
  | cons a t ih =>
    intro l' h
    rw [List.mapM_cons] at h
    obtain ⟨b, hb, h2⟩ := Option.bind_eq_some.mp h
    obtain ⟨bs, hbs, h3⟩ := Option.bind_eq_some.mp h2
    cases h3
    exact List.Forall₂.cons hb (ih hbs)

/-- Counterexample to C9: a run of the Ranking-Builder pipeline leaves the
stored difficulty index of course 1 at its stale value 5, while the
Difficulty Index Calculator over the same ledger yields 0 for that course
(a single course is always zero-centered). -/
theorem pipeline_stale_indices_counterexample :
    (generate_rankings_pipeline eightRoundState).map DBState.courses = some [5]
  ∧ update_difficulty_indices_result eightRoundState [1] = some [(1, 0)]
  ∧ (5 : ℚ) ≠ 0 := by
  refine ⟨rfl, ?_, by norm_num⟩
  norm_num [update_difficulty_indices_result, final_averages, overall_avg,
    course_averages_by_player, pcaPairs, player_course_averages, player_data,
    selectedScores, sortByTimestamp, eightRoundState, idxRow, registeredB,
    eligibleB, countScoresOn, NUM_REQUIRED_SCORES, groupByKey, appendGroup,
    lookupGroup, alookup, mean, lastN, List.insertionSort, List.orderedInsert,
    tsLe]

/-- C9 amended: each pipeline run recomputes every adjusted score from the
*stored* difficulty indices and then replays the ratings, but it never
recomputes the difficulty indices themselves: the stored indices (and the
pending queue) after a run are exactly those before it. -/
theorem pipeline_no_index_recompute (s t : DBState)
    (h : generate_rankings_pipeline s = some t) :
    t.courses = s.courses ∧ t.pending = s.pending
    ∧ ∃ rows, s.scores.mapM (adjustRow s.courses) = some rows
        ∧ List.Forall₂ (fun r r' => adjustRow s.courses r = some r') s.scores rows
        ∧ t = update_player_ratings_state { s with scores := rows } := by
  rw [generate_rankings_pipeline] at h
  obtain ⟨u, hu, ht⟩ := Option.map_eq_some'.mp h
  rw [update_adjusted_scores_state] at hu
  obtain ⟨rows, hrows, hu2⟩ := Option.map_eq_some'.mp hu
  subst hu2
  subst ht
  exact ⟨rfl, rfl, rows, hrows, mapM_option_forall2 hrows, rfl⟩

/-- Witness for the amended C9 at the eight-round state. -/
theorem pipeline_no_index_recompute_witness :
    (∃ t, generate_rankings_pipeline eightRoundState = some t)
  ∧ (∀ t, generate_rankings_pipeline eightRoundState = some t →
      t.courses = eightRoundState.courses ∧ t.pending = eightRoundState.pending
      ∧ ∃ rows, eightRoundState.scores.mapM (adjustRow eightRoundState.courses)
            = some rows
          ∧ List.Forall₂ (fun r r' => adjustRow eightRoundState.courses r = some r')
              eightRoundState.scores rows
          ∧ t = update_player_ratings_state
              { eightRoundState with scores := rows }) :=
  ⟨⟨update_player_ratings_state { eightRoundState with
      scores := (eightRoundState.scores.mapM
        (adjustRow eightRoundState.courses)).getD [] }, by rfl⟩,
   fun t ht => pipeline_no_index_recompute eightRoundState t ht⟩

/-- The rated-players extraction of `generate_rankings_table` (lines
572-577): players whose rating is not the `INVALID_RATING` sentinel, as
`(player_name, rating)` in table order. -/
def rated_players (players : List PlayerRow) : List (String × ℚ) :=
  players.filterMap (fun p => p.rating.map (fun r => (p.player_name, r)))

/-- The comparison of `rated_players.sort(key=lambda x: x[1])`. -/
def ratingLe (a b : String × ℚ) : Prop := a.2 ≤ b.2

instance : DecidableRel ratingLe :=
  fun a b => inferInstanceAs (Decidable (a.2 ≤ b.2))

instance : IsTotal (String × ℚ) ratingLe := ⟨fun a b => le_total a.2 b.2⟩

instance : IsTrans (String × ℚ) ratingLe := ⟨fun _ _ _ h1 h2 => le_trans h1 h2⟩

/-- `rankings_sheet` of `generate_rankings_table` (lines 584-589): the rated
players stably sorted by rating with 1-based ranks
(`enumerate(rated_players, start=1)`). -/
def rankings_sheet (players : List PlayerRow) : List (Nat × String × ℚ) :=
  ((rated_players players).insertionSort ratingLe).enum.map
    (fun ie => (ie.1 + 1, ie.2))

theorem rankings_payload (players : List PlayerRow) :
    (rankings_sheet players).map Prod.snd
      = (rated_players players).insertionSort ratingLe := by
  rw [rankings_sheet, List.map_map]
  rw [show (Prod.snd ∘ fun ie : Nat × String × ℚ => (ie.1 + 1, ie.2))
    = (Prod.snd : Nat × String × ℚ → String × ℚ) from rfl]
  rw [List.enum_map_snd]

/-- C8: the ranking contains exactly the players whose current rating is not
the `Unrated` sentinel, sorted ascending by rating, with 1-based consecutive
ranks, and ties broken by stable input order (a pair in input order with
non-decreasing ratings stays in that order in the ranking). -/
theorem rankings_spec (players : List PlayerRow) :
    List.Perm ((rankings_sheet players).map Prod.snd) (rated_players players)
  ∧ (∀ nm r, (nm, r) ∈ (rankings_sheet players).map Prod.snd
       ↔ ∃ p ∈ players, p.player_name = nm ∧ p.rating = some r)
  ∧ List.Sorted ratingLe ((rankings_sheet players).map Prod.snd)
  ∧ (rankings_sheet players).map Prod.fst
      = List.range' 1 (rated_players players).length
  ∧ (∀ a b, List.Sublist [a, b] (rated_players players) → ratingLe a b →
       List.Sublist [a, b] ((rankings_sheet players).map Prod.snd)) := by
  refine ⟨?_, ?_, ?_, ?_, ?_⟩
  · rw [rankings_payload]
    exact List.perm_insertionSort ratingLe _
  · intro nm r
    rw [rankings_payload]
    rw [(List.perm_insertionSort ratingLe (rated_players players)).mem_iff]
    rw [rated_players, List.mem_filterMap]
    constructor
    · rintro ⟨p, hp, hf⟩
      obtain ⟨r0, hr0, hpair⟩ := Option.map_eq_some'.mp hf
      cases hpair
      exact ⟨p, hp, rfl, hr0⟩
    · rintro ⟨p, hp, hnm, hr⟩
      exact ⟨p, hp, by rw [hr, hnm]; rfl⟩
  · rw [rankings_payload]
    exact List.sorted_insertionSort ratingLe _
  · rw [rankings_sheet, List.map_map]
    rw [show ((Prod.fst : Nat × String × ℚ → Nat)
        ∘ fun ie : Nat × String × ℚ => (ie.1 + 1, ie.2))
      = (fun ie : Nat × (String × ℚ) => ie.1 + 1) from rfl]
    rw [show (fun ie : Nat × (String × ℚ) => ie.1 + 1)
      = ((fun n => n + 1) ∘ (Prod.fst : Nat × (String × ℚ) → Nat)) from rfl]
    rw [← List.map_map, List.enum_map_fst, List.length_insertionSort,
      List.range'_eq_map_range]
    exact List.map_congr_left (fun n _ => Nat.add_comm n 1)
  · intro a b hab hle
    rw [rankings_payload]
    exact List.pair_sublist_insertionSort hle hab

/-- A player table with an unrated player and a rating tie, for the C8
witness. -/
def rankPlayers : List PlayerRow :=
  [{ discord_id := 1, player_name := "a", rating := some 2 },
   { discord_id := 2, player_name := "b", rating := none },
   { discord_id := 3, player_name := "c", rating := some 1 },
   { discord_id := 4, player_name := "d", rating := some 1 }]

/-- Witness for C8: the tied players `c` and `d` keep their input order in
the ranking, and membership matches the non-Unrated players. -/
theorem rankings_spec_witness :
    List.Sublist [(("c" : String), (1 : ℚ)), ("d", 1)] (rated_players rankPlayers)
  ∧ ratingLe ("c", 1) ("d", 1)
  ∧ List.Sublist [(("c" : String), (1 : ℚ)), ("d", 1)]
      ((rankings_sheet rankPlayers).map Prod.snd)
  ∧ ((("a" : String), (2 : ℚ)) ∈ (rankings_sheet rankPlayers).map Prod.snd
      ↔ ∃ p ∈ rankPlayers, p.player_name = "a" ∧ p.rating = some 2) :=
  ⟨by decide, by decide,
   (rankings_spec rankPlayers).2.2.2.2 ("c", 1) ("d", 1) (by decide) (by decide),
   (rankings_spec rankPlayers).2.1 "a" 2⟩

end Golfbot
